import Mathlib

/-!
Shallow embedding of the ray-marching / mirror-image core of the
`brilliant_demo` repository (files `src/physics/index.ts` and
`src/utils/math.ts`), together with theorems checking the
natural-language specification against the code.

Numbers are modelled as real numbers; TypeScript `undefined`-able
fields become `Option`; the `while` bounce loop becomes structural
recursion on the remaining bounce budget (`fuel`), which is exactly the
quantity `maxBounces - bounces` that the loop strictly decreases on
every iteration that does not terminate the trace.
-/

namespace Phys

/-- Vec2 from `src/types/index.ts`: a 2D point/vector in meters. -/
structure Vec2 where
  x : ℝ
  y : ℝ

/-- LineSegment from `src/types/index.ts`: one collision edge, optionally reflective. -/
structure LineSegment where
  p1 : Vec2
  p2 : Vec2
  componentId : String
  reflect : Option Bool

/-- Component kinds that can own geometry (`ComponentGeometry.type`). -/
inductive GType where
  | wall
  | mirror
  | bunny
  | viewer
  | phantom
deriving DecidableEq

/-- ComponentGeometry from `src/types/index.ts`. -/
structure ComponentGeometry where
  id : String
  type : GType
  boundingLines : List LineSegment

/-- ViewerSpec from `src/types/index.ts` (the `type: viewer` tag is implicit). -/
structure ViewerSpec where
  id : String
  position : Vec2
  orientation : ℝ

/-- RaySegment from `src/types/index.ts`: one straight leg of a traced ray. -/
structure RaySegment where
  origin : Vec2
  direction : Vec2
  length : ℝ
  hitComponentId : Option String

/-- RayHit, the private record built by `findClosestHit` in `src/physics/index.ts`. -/
structure RayHit where
  point : Vec2
  distance : ℝ
  componentId : String
  segmentIndex : ℕ
  normal : Option Vec2
  isReflective : Option Bool

/-- Return value of `rayLineIntersection` in `src/utils/math.ts`. -/
structure Intersection where
  point : Vec2
  distance : ℝ

/-- MirrorImageData from `src/physics/index.ts`. -/
structure MirrorImageData where
  position : Vec2
  reflectionPointIndex : ℕ

/-- distance from `src/utils/math.ts`. -/
noncomputable def distance (a b : Vec2) : ℝ :=
  Real.sqrt ((b.x - a.x) * (b.x - a.x) + (b.y - a.y) * (b.y - a.y))

/-- normalize from `src/utils/math.ts`; returns the zero vector for zero input. -/
noncomputable def normalize (v : Vec2) : Vec2 :=
  let length := Real.sqrt (v.x * v.x + v.y * v.y)
  if length = 0 then ⟨0, 0⟩ else ⟨v.x / length, v.y / length⟩

/-- add from `src/utils/math.ts`. -/
def add (a b : Vec2) : Vec2 := ⟨a.x + b.x, a.y + b.y⟩

/-- subtract from `src/utils/math.ts`. -/
def subtract (a b : Vec2) : Vec2 := ⟨a.x - b.x, a.y - b.y⟩

/-- scale from `src/utils/math.ts`. -/
def scale (v : Vec2) (s : ℝ) : Vec2 := ⟨v.x * s, v.y * s⟩

/-- dot from `src/utils/math.ts`. -/
def dot (a b : Vec2) : ℝ := a.x * b.x + a.y * b.y

/-- reflect from `src/utils/math.ts`: incident minus twice its projection on the normalized normal. -/
noncomputable def reflect (incident normal : Vec2) : Vec2 :=
  let normalizedNormal := normalize normal
  let dotProduct := dot incident normalizedNormal
  subtract incident (scale normalizedNormal (2 * dotProduct))

/-- directionFromAngle from `src/utils/math.ts`. -/
noncomputable def directionFromAngle (angle : ℝ) : Vec2 :=
  ⟨Real.cos angle, Real.sin angle⟩

/-- lineIntersection from `src/utils/math.ts`: parametric segment-segment intersection,
none when near-parallel (the determinant is below 1/10^10) or out of range. -/
noncomputable def lineIntersection (p1 p2 p3 p4 : Vec2) : Option Vec2 :=
  let denom := (p1.x - p2.x) * (p3.y - p4.y) - (p1.y - p2.y) * (p3.x - p4.x)
  if |denom| < 1 / 10 ^ 10 then none
  else
    let t := ((p1.x - p3.x) * (p3.y - p4.y) - (p1.y - p3.y) * (p3.x - p4.x)) / denom
    let u := -((p1.x - p2.x) * (p1.y - p3.y) - (p1.y - p2.y) * (p1.x - p3.x)) / denom
    if 0 ≤ t ∧ t ≤ 1 ∧ 0 ≤ u ∧ u ≤ 1 then
      some ⟨p1.x + t * (p2.x - p1.x), p1.y + t * (p2.y - p1.y)⟩
    else none

/-- rayLineIntersection from `src/utils/math.ts`: extends the ray 1000 units and reuses
segment intersection, rejecting points behind the origin. -/
noncomputable def rayLineIntersection (rayOrigin rayDirection lineStart lineEnd : Vec2) :
    Option Intersection :=
  let rayEnd := add rayOrigin (scale rayDirection 1000)
  match lineIntersection rayOrigin rayEnd lineStart lineEnd with
  | none => none
  | some pt =>
    if dot (subtract pt rayOrigin) rayDirection < 0 then none
    else some ⟨pt, distance rayOrigin pt⟩

/-- getNormalFromLine from `src/utils/math.ts`. -/
noncomputable def getNormalFromLine (lineStart lineEnd : Vec2) : Vec2 :=
  let direction := subtract lineEnd lineStart
  normalize ⟨direction.y, -direction.x⟩

/-- RayHit record as assembled inside the inner loop of `findClosestHit`. -/
noncomputable def mkHit (gid : String) (i : ℕ) (line : LineSegment) (r : Intersection) : RayHit :=
  { point := r.point
    distance := r.distance
    componentId := gid
    segmentIndex := i
    normal := some (getNormalFromLine line.p1 line.p2)
    isReflective := some (line.reflect.getD false) }

/-- One step of the inner loop of `findClosestHit` over an indexed bounding line:
keeps the accumulator unless the segment yields an intersection farther than 0.001
and strictly closer than the current best. -/
noncomputable def accStep (rayOrigin rayDirection : Vec2) (gid : String)
    (acc : Option RayHit) (il : ℕ × LineSegment) : Option RayHit :=
  match rayLineIntersection rayOrigin rayDirection il.2.p1 il.2.p2 with
  | none => acc
  | some r =>
    match acc with
    | none => if 0.001 < r.distance then some (mkHit gid il.1 il.2 r) else none
    | some h =>
      if 0.001 < r.distance ∧ r.distance < h.distance then some (mkHit gid il.1 il.2 r)
      else some h

/-- findClosestHit from `src/physics/index.ts`: iterates every bounding line of every
non-viewer geometry, keeping the closest intersection farther than the 0.001 epsilon. -/
noncomputable def findClosestHit (rayOrigin rayDirection : Vec2)
    (geometries : List ComponentGeometry) : Option RayHit :=
  geometries.foldl
    (fun acc g =>
      if g.type = GType.viewer then acc
      else g.boundingLines.enum.foldl (accStep rayOrigin rayDirection g.id) acc)
    none

/-- Bounce loop of `computeRaySegments`; `fuel` is the remaining bounce budget
`maxBounces - bounces`, strictly decreased by every mirror reflection. -/
noncomputable def traceLoop (geometries : List ComponentGeometry)
    (currentOrigin currentDirection : Vec2) (totalLength maxLength : ℝ) :
    ℕ → List RaySegment
  | 0 => []
  | fuel + 1 =>
    if totalLength < maxLength then
      match findClosestHit currentOrigin currentDirection geometries with
      | none =>
        if 0 < maxLength - totalLength then
          [{ origin := currentOrigin
             direction := currentDirection
             length := min (maxLength - totalLength) 20
             hitComponentId := none }]
        else []
      | some hit =>
        let seg : RaySegment :=
          { origin := currentOrigin
            direction := currentDirection
            length := hit.distance
            hitComponentId := some hit.componentId }
        match geometries.find? (fun g => g.id == hit.componentId) with
        | none => [seg]
        | some hitGeometry =>
          if hitGeometry.type = GType.wall ∨ hitGeometry.type = GType.bunny then [seg]
          else if hitGeometry.type = GType.mirror ∧ hit.normal.isSome ∧
              hit.isReflective = some true then
            seg ::
              traceLoop geometries hit.point
                (reflect currentDirection (hit.normal.getD ⟨0, 0⟩))
                (totalLength + hit.distance) maxLength fuel
          else [seg]
    else []

/-- computeRaySegments from `src/physics/index.ts`. -/
noncomputable def computeRaySegments (geometries : List ComponentGeometry)
    (viewer : ViewerSpec) (maxLength : ℝ := 50) : List RaySegment :=
  let currentOrigin := viewer.position
  let currentDirection := directionFromAngle viewer.orientation
  if maxLength ≤ 0 then
    [{ origin := currentOrigin, direction := currentDirection, length := 0,
       hitComponentId := none }]
  else traceLoop geometries currentOrigin currentDirection 0 maxLength 10

/-- computeMirrorImage from `src/physics/index.ts`: none for an empty sub-path, else
the first origin advanced along the normalized first direction by the summed lengths. -/
noncomputable def computeMirrorImage (raySegments : List RaySegment) : Option Vec2 :=
  match raySegments with
  | [] => none
  | first :: rest =>
    let totalLength := (first :: rest).foldl (fun sum seg => sum + seg.length) 0
    some (add first.origin (scale (normalize first.direction) totalLength))

/-- Placeholder RaySegment used to model the always-in-bounds index access
`raySegments[i]` of the loop in `computeMirrorImages`. -/
def dfltSeg : RaySegment := ⟨⟨0, 0⟩, ⟨0, 0⟩, 0, none⟩

/-- computeMirrorImages from `src/physics/index.ts`. -/
noncomputable def computeMirrorImages (raySegments : List RaySegment) :
    List MirrorImageData :=
  match raySegments.getLast? with
  | none => []
  | some lastSegment =>
    if lastSegment.hitComponentId.isSome then
      (List.range (raySegments.length - 1)).filterMap (fun i =>
        let segment := raySegments.getD i dfltSeg
        if segment.hitComponentId.isSome then
          match computeMirrorImage (raySegments.drop i) with
          | some pos => some ⟨pos, i⟩
          | none => none
        else none)
    else []

/-!
Helper notions and lemmas.
-/

/-- Squared Euclidean norm of a vector. -/
def sqnorm (v : Vec2) : ℝ := v.x * v.x + v.y * v.y

theorem sqnorm_nonneg (v : Vec2) : 0 ≤ sqnorm v := by
  have hx := mul_self_nonneg v.x
  have hy := mul_self_nonneg v.y
  unfold sqnorm
  linarith

theorem distance_nonneg (a b : Vec2) : 0 ≤ distance a b := Real.sqrt_nonneg _

theorem sqnorm_normalize (v : Vec2) :
    sqnorm (normalize v) = 0 ∨ sqnorm (normalize v) = 1 := by
  unfold normalize
  by_cases h : Real.sqrt (v.x * v.x + v.y * v.y) = 0
  · left
    simp [h, sqnorm]
  · right
    have hs : 0 ≤ v.x * v.x + v.y * v.y := by
      nlinarith [mul_self_nonneg v.x, mul_self_nonneg v.y]
    have hL2 : Real.sqrt (v.x * v.x + v.y * v.y) * Real.sqrt (v.x * v.x + v.y * v.y) =
        v.x * v.x + v.y * v.y := Real.mul_self_sqrt hs
    have hs0 : v.x * v.x + v.y * v.y ≠ 0 := by
      intro hz
      exact h (by rw [hz, Real.sqrt_zero])
    simp only [h, if_false, sqnorm]
    rw [div_mul_div_comm, div_mul_div_comm, hL2, div_add_div_same, div_self hs0]

theorem sqnorm_eq_zero (v : Vec2) (h : sqnorm v = 0) : v.x = 0 ∧ v.y = 0 := by
  unfold sqnorm at h
  constructor <;> nlinarith [mul_self_nonneg v.x, mul_self_nonneg v.y]

/-- Reflection preserves the squared norm for every normal vector: `reflect`
normalizes the normal internally, and the normalized normal is either the zero
vector (degenerate input, identity reflection) or a unit vector (isometry). -/
theorem sqnorm_reflect (d n : Vec2) : sqnorm (reflect d n) = sqnorm d := by
  rcases sqnorm_normalize n with h | h
  · obtain ⟨hx, hy⟩ := sqnorm_eq_zero _ h
    simp [reflect, subtract, scale, dot, sqnorm, hx, hy]
  · simp only [sqnorm] at h
    simp only [reflect, subtract, scale, dot, sqnorm]
    linear_combination (4 * (d.x * (normalize n).x + d.y * (normalize n).y) ^ 2) * h

theorem sqnorm_directionFromAngle (angle : ℝ) : sqnorm (directionFromAngle angle) = 1 := by
  have h := Real.sin_sq_add_cos_sq angle
  simp only [directionFromAngle, sqnorm]
  nlinarith [h]

/-!
Characterization of `findClosestHit` as a first-minimum selection over the
candidate list, scanned in iteration order.
-/

/-- Candidate hit for one indexed bounding line: the ray intersection, kept only
when its distance exceeds the 0.001 epsilon of `findClosestHit`. -/
noncomputable def segmentCandidate (rayOrigin rayDirection : Vec2) (gid : String)
    (il : ℕ × LineSegment) : Option RayHit :=
  match rayLineIntersection rayOrigin rayDirection il.2.p1 il.2.p2 with
  | none => none
  | some r => if 0.001 < r.distance then some (mkHit gid il.1 il.2 r) else none

/-- All candidate hits of a ray against a geometry list, in iteration order:
viewer records contribute nothing, other records contribute one entry per
bounding line whose intersection distance exceeds 0.001. -/
noncomputable def candidates (rayOrigin rayDirection : Vec2)
    (geometries : List ComponentGeometry) : List RayHit :=
  geometries.flatMap (fun g =>
    if g.type = GType.viewer then []
    else g.boundingLines.enum.filterMap (segmentCandidate rayOrigin rayDirection g.id))

/-- Closest-so-far selection step: a later candidate replaces the current best
only when strictly closer, so the first of equally distant candidates wins. -/
noncomputable def minStep (acc : Option RayHit) (c : RayHit) : Option RayHit :=
  match acc with
  | none => some c
  | some h => if c.distance < h.distance then some c else some h

theorem accStep_eq_minStep (o di : Vec2) (gid : String) (acc : Option RayHit)
    (il : ℕ × LineSegment) :
    accStep o di gid acc il =
      match segmentCandidate o di gid il with
      | none => acc
      | some c => minStep acc c := by
  cases hr : rayLineIntersection o di il.2.p1 il.2.p2 with
  | none => cases acc <;> simp [accStep, segmentCandidate, minStep, hr]
  | some r =>
    cases acc with
    | none =>
      by_cases h : 0.001 < r.distance <;>
        simp [accStep, segmentCandidate, minStep, hr, h]
    | some hh =>
      by_cases h : 0.001 < r.distance
      · by_cases h2 : r.distance < hh.distance <;>
          simp [accStep, segmentCandidate, minStep, mkHit, hr, h, h2]
      · simp [accStep, segmentCandidate, minStep, hr, h]

theorem foldl_accStep_eq (o di : Vec2) (gid : String) (pl : List (ℕ × LineSegment)) :
    ∀ acc : Option RayHit,
      pl.foldl (accStep o di gid) acc =
        (pl.filterMap (segmentCandidate o di gid)).foldl minStep acc := by
  induction pl with
  | nil => intro acc; rfl
  | cons il pl ih =>
    intro acc
    rw [List.foldl_cons, accStep_eq_minStep, List.filterMap_cons]
    cases hc : segmentCandidate o di gid il with
    | none => simp only [ih]
    | some c => simp only [ih, List.foldl_cons]

theorem findClosestHit_eq_foldl (o di : Vec2) (geometries : List ComponentGeometry) :
    findClosestHit o di geometries = (candidates o di geometries).foldl minStep none := by
  suffices h : ∀ (gs : List ComponentGeometry) (acc : Option RayHit),
      gs.foldl
        (fun acc g =>
          if g.type = GType.viewer then acc
          else g.boundingLines.enum.foldl (accStep o di g.id) acc) acc =
      (gs.flatMap (fun g =>
        if g.type = GType.viewer then []
        else g.boundingLines.enum.filterMap (segmentCandidate o di g.id))).foldl
          minStep acc by
    exact h geometries none
  intro gs
  induction gs with
  | nil => intro acc; rfl
  | cons g gs ih =>
    intro acc
    rw [List.foldl_cons, List.flatMap_cons, List.foldl_append, ih]
    by_cases hv : g.type = GType.viewer
    · simp [hv]
    · simp [hv, foldl_accStep_eq]

theorem foldl_minStep_isSome (l : List RayHit) :
    ∀ a : RayHit, (l.foldl minStep (some a)).isSome := by
  induction l with
  | nil => intro a; rfl
  | cons c cs ih =>
    intro a
    rw [List.foldl_cons]
    by_cases h : c.distance < a.distance
    · rw [show minStep (some a) c = some c by simp [minStep, h]]
      exact ih c
    · rw [show minStep (some a) c = some a by simp [minStep, h]]
      exact ih a

theorem foldl_minStep_none_iff (l : List RayHit) :
    l.foldl minStep none = none ↔ l = [] := by
  cases l with
  | nil => simp
  | cons c cs =>
    simp only [List.foldl_cons]
    rw [show minStep none c = some c from rfl]
    constructor
    · intro h
      have := foldl_minStep_isSome cs c
      rw [h] at this
      cases this
    · intro h
      cases h

theorem foldl_minStep_spec (l : List RayHit) :
    ∀ a h : RayHit, l.foldl minStep (some a) = some h →
      (h = a ∧ ∀ c ∈ l, a.distance ≤ c.distance) ∨
      (∃ i, ∃ hi : i < l.length, l.get ⟨i, hi⟩ = h ∧ h.distance < a.distance ∧
        (∀ c ∈ l, h.distance ≤ c.distance) ∧ ∀ c ∈ l.take i, h.distance < c.distance) := by
  induction l with
  | nil =>
    intro a h heq
    left
    refine ⟨by simpa using heq.symm, by simp⟩
  | cons c cs ih =>
    intro a h heq
    rw [List.foldl_cons] at heq
    by_cases hlt : c.distance < a.distance
    · rw [show minStep (some a) c = some c by simp [minStep, hlt]] at heq
      rcases ih c h heq with ⟨rfl, hall⟩ | ⟨i, hi, hget, hdlt, hmin, htake⟩
      · right
        refine ⟨0, by simp, rfl, hlt, ?_, by simp⟩
        intro x hx
        rcases List.mem_cons.mp hx with rfl | hx
        · exact le_refl _
        · exact hall x hx
      · right
        refine ⟨i + 1, Nat.succ_lt_succ hi, by simpa using hget,
          lt_trans hdlt hlt, ?_, ?_⟩
        · intro x hx
          rcases List.mem_cons.mp hx with rfl | hx
          · exact le_of_lt hdlt
          · exact hmin x hx
        · intro x hx
          rw [List.take_succ_cons] at hx
          rcases List.mem_cons.mp hx with rfl | hx
          · exact hdlt
          · exact htake x hx
    · rw [show minStep (some a) c = some a by simp [minStep, hlt]] at heq
      rcases ih a h heq with ⟨rfl, hall⟩ | ⟨i, hi, hget, hdlt, hmin, htake⟩
      · left
        refine ⟨rfl, ?_⟩
        intro x hx
        rcases List.mem_cons.mp hx with rfl | hx
        · exact le_of_not_lt hlt
        · exact hall x hx
      · right
        refine ⟨i + 1, Nat.succ_lt_succ hi, by simpa using hget, hdlt, ?_, ?_⟩
        · intro x hx
          rcases List.mem_cons.mp hx with rfl | hx
          · exact le_of_lt (lt_of_lt_of_le hdlt (le_of_not_lt hlt))
          · exact hmin x hx
        · intro x hx
          rw [List.take_succ_cons] at hx
          rcases List.mem_cons.mp hx with rfl | hx
          · exact lt_of_lt_of_le hdlt (le_of_not_lt hlt)
          · exact htake x hx

theorem foldl_minStep_none_spec (l : List RayHit) (h : RayHit)
    (heq : l.foldl minStep none = some h) :
    ∃ i, ∃ hi : i < l.length, l.get ⟨i, hi⟩ = h ∧
      (∀ c ∈ l, h.distance ≤ c.distance) ∧ ∀ c ∈ l.take i, h.distance < c.distance := by
  cases l with
  | nil => cases heq
  | cons c cs =>
    rw [List.foldl_cons, show minStep none c = some c from rfl] at heq
    rcases foldl_minStep_spec cs c h heq with ⟨rfl, hall⟩ | ⟨i, hi, hget, hdlt, hmin, htake⟩
    · refine ⟨0, by simp, rfl, ?_, by simp⟩
      intro x hx
      rcases List.mem_cons.mp hx with rfl | hx
      · exact le_refl _
      · exact hall x hx
    · refine ⟨i + 1, Nat.succ_lt_succ hi, by simpa using hget, ?_, ?_⟩
      · intro x hx
        rcases List.mem_cons.mp hx with rfl | hx
        · exact le_of_lt hdlt
        · exact hmin x hx
      · intro x hx
        rw [List.take_succ_cons] at hx
        rcases List.mem_cons.mp hx with rfl | hx
        · exact hdlt
        · exact htake x hx

theorem mem_candidates_epsilon (o di : Vec2) (gs : List ComponentGeometry) (c : RayHit)
    (hc : c ∈ candidates o di gs) : 0.001 < c.distance := by
  unfold candidates at hc
  rcases List.mem_flatMap.mp hc with ⟨g, _, hmem⟩
  by_cases hv : g.type = GType.viewer
  · rw [if_pos hv] at hmem
    cases hmem
  · rw [if_neg hv] at hmem
    rcases List.mem_filterMap.mp hmem with ⟨il, _, hil⟩
    cases hr : rayLineIntersection o di il.2.p1 il.2.p2 with
    | none =>
      simp only [segmentCandidate, hr] at hil
      exact Option.noConfusion hil
    | some r =>
      simp only [segmentCandidate, hr] at hil
      by_cases hd : 0.001 < r.distance
      · rw [if_pos hd] at hil
        simp only [Option.some.injEq] at hil
        rw [← hil]
        simpa [mkHit] using hd
      · rw [if_neg hd] at hil
        cases hil

theorem findClosestHit_none_iff (o di : Vec2) (gs : List ComponentGeometry) :
    findClosestHit o di gs = none ↔ candidates o di gs = [] := by
  rw [findClosestHit_eq_foldl]
  exact foldl_minStep_none_iff _

theorem findClosestHit_some_spec (o di : Vec2) (gs : List ComponentGeometry) (h : RayHit)
    (heq : findClosestHit o di gs = some h) :
    ∃ i, ∃ hi : i < (candidates o di gs).length, (candidates o di gs).get ⟨i, hi⟩ = h ∧
      (∀ c ∈ candidates o di gs, h.distance ≤ c.distance) ∧
      ∀ c ∈ (candidates o di gs).take i, h.distance < c.distance := by
  rw [findClosestHit_eq_foldl] at heq
  exact foldl_minStep_none_spec _ _ heq

theorem findClosestHit_some_epsilon (o di : Vec2) (gs : List ComponentGeometry) (h : RayHit)
    (heq : findClosestHit o di gs = some h) : 0.001 < h.distance := by
  obtain ⟨i, hi, hget, -, -⟩ := findClosestHit_some_spec o di gs h heq
  exact mem_candidates_epsilon o di gs h (hget ▸ List.get_mem _ i hi)

/-!
Lemmas about the bounce loop `traceLoop` and `computeRaySegments`.
-/


theorem traceLoop_length_le (geometries : List ComponentGeometry) (ml : ℝ) :
    ∀ (fuel : ℕ) (o di : Vec2) (tl : ℝ),
      (traceLoop geometries o di tl ml fuel).length ≤ fuel + 1 := by
  intro fuel
  induction fuel with
  | zero =>
    intro o di tl
    simp [traceLoop]
  | succ fuel ih =>
    intro o di tl
    rw [traceLoop]
    split
    · split
      · split
        · simp
        · simp
      · split
        · simp
        · split
          · simp
          · split
            · simp only [List.length_cons]
              exact Nat.succ_le_succ (ih _ _ _)
            · simp
    · simp

theorem traceLoop_noHit (geometries : List ComponentGeometry) (o di : Vec2) (tl ml : ℝ)
    (fuel : ℕ) (hfuel : 0 < fuel) (hml : tl < ml)
    (hnone : findClosestHit o di geometries = none) :
    traceLoop geometries o di tl ml fuel =
      [{ origin := o, direction := di, length := min (ml - tl) 20,
         hitComponentId := none }] := by
  cases fuel with
  | zero => exact absurd hfuel (lt_irrefl 0)
  | succ fuel =>
    rw [traceLoop, if_pos hml]
    simp only [hnone]
    rw [if_pos (by linarith : (0:ℝ) < ml - tl)]

theorem traceLoop_unit_nonneg (geometries : List ComponentGeometry) (ml : ℝ) :
    ∀ (fuel : ℕ) (o di : Vec2) (tl : ℝ), sqnorm di = 1 →
      ∀ seg ∈ traceLoop geometries o di tl ml fuel,
        sqnorm seg.direction = 1 ∧ 0 ≤ seg.length := by
  intro fuel
  induction fuel with
  | zero =>
    intro o di tl hdi seg hseg
    simp [traceLoop] at hseg
  | succ fuel ih =>
    intro o di tl hdi seg hseg
    rw [traceLoop] at hseg
    split at hseg
    · split at hseg
      · rename_i hnone
        split at hseg
        · rename_i hrem
          rcases List.mem_singleton.mp hseg with rfl
          refine ⟨hdi, ?_⟩
          exact le_min (le_of_lt hrem) (by norm_num)
        · simp at hseg
      · rename_i hit hsome
        have heps := findClosestHit_some_epsilon _ _ _ _ hsome
        have hd0 : 0 ≤ hit.distance := le_of_lt (lt_trans (by norm_num) heps)
        split at hseg
        · rcases List.mem_singleton.mp hseg with rfl
          exact ⟨hdi, hd0⟩
        · split at hseg
          · rcases List.mem_singleton.mp hseg with rfl
            exact ⟨hdi, hd0⟩
          · split at hseg
            · rcases List.mem_cons.mp hseg with rfl | hmem
              · exact ⟨hdi, hd0⟩
              · refine ih _ _ _ ?_ seg hmem
                rw [sqnorm_reflect]
                exact hdi
            · rcases List.mem_singleton.mp hseg with rfl
              exact ⟨hdi, hd0⟩
    · simp at hseg

theorem mem_dropLast_cons {α : Type} {a x : α} {l : List α}
    (h : x ∈ (a :: l).dropLast) : x = a ∨ x ∈ l.dropLast := by
  cases l with
  | nil => simp at h
  | cons b lt =>
    rw [List.dropLast_cons₂] at h
    rcases List.mem_cons.mp h with rfl | h
    · exact Or.inl rfl
    · exact Or.inr h

theorem traceLoop_dropLast_hit (geometries : List ComponentGeometry) (ml : ℝ) :
    ∀ (fuel : ℕ) (o di : Vec2) (tl : ℝ),
      ∀ seg ∈ (traceLoop geometries o di tl ml fuel).dropLast,
        seg.hitComponentId.isSome := by
  intro fuel
  induction fuel with
  | zero =>
    intro o di tl seg hseg
    simp [traceLoop] at hseg
  | succ fuel ih =>
    intro o di tl seg hseg
    rw [traceLoop] at hseg
    split at hseg
    · split at hseg
      · split at hseg
        · simp at hseg
        · simp at hseg
      · split at hseg
        · simp at hseg
        · split at hseg
          · simp at hseg
          · split at hseg
            · rcases mem_dropLast_cons hseg with rfl | hmem
              · rfl
              · exact ih _ _ _ seg hmem
            · simp at hseg
    · simp at hseg


/-!
Lemmas about the mirror-image solver.
-/


theorem foldl_add_length (l : List RaySegment) :
    ∀ a : ℝ, l.foldl (fun sum seg => sum + seg.length) a = a + (l.map RaySegment.length).sum := by
  induction l with
  | nil => intro a; simp
  | cons s l ih =>
    intro a
    rw [List.foldl_cons, ih, List.map_cons, List.sum_cons]
    ring

theorem computeMirrorImage_eq_none_iff (l : List RaySegment) :
    computeMirrorImage l = none ↔ l = [] := by
  cases l <;> simp [computeMirrorImage]

theorem computeMirrorImage_cons (first : RaySegment) (rest : List RaySegment) :
    computeMirrorImage (first :: rest) =
      some (add first.origin (scale (normalize first.direction)
        (((first :: rest).map RaySegment.length).sum))) := by
  simp [computeMirrorImage, foldl_add_length]

theorem computeMirrorImages_noHit (l : List RaySegment) (hne : l ≠ [])
    (hlast : (l.getLast hne).hitComponentId = none) :
    computeMirrorImages l = [] := by
  unfold computeMirrorImages
  rw [List.getLast?_eq_getLast l hne]
  simp [hlast]

theorem filterMap_congr_mem {α β : Type} (l : List α) (f g : α → Option β)
    (h : ∀ a ∈ l, f a = g a) : l.filterMap f = l.filterMap g := by
  induction l with
  | nil => rfl
  | cons a l ih =>
    rw [List.filterMap_cons, List.filterMap_cons, h a (List.mem_cons_self a l),
      ih (fun x hx => h x (List.mem_cons_of_mem a hx))]

theorem filterMap_guard_eq_filter {α : Type} (l : List α) (p : α → Bool) :
    l.filterMap (fun i => if p i then some i else none) = l.filter p := by
  induction l with
  | nil => rfl
  | cons a l ih =>
    by_cases h : p a <;> simp [List.filterMap_cons, List.filter_cons, h, ih]

theorem computeMirrorImages_eq (l : List RaySegment) (hne : l ≠ [])
    (hlast : (l.getLast hne).hitComponentId.isSome) :
    computeMirrorImages l = (List.range (l.length - 1)).filterMap (fun i =>
      if (l.getD i dfltSeg).hitComponentId.isSome then
        (computeMirrorImage (l.drop i)).map
          (fun pos => { position := pos, reflectionPointIndex := i })
      else none) := by
  unfold computeMirrorImages
  rw [List.getLast?_eq_getLast l hne]
  simp only [hlast, if_true]
  apply filterMap_congr_mem
  intro i _
  by_cases hp : (l.getD i dfltSeg).hitComponentId.isSome
  · rw [if_pos hp, if_pos hp]
    cases computeMirrorImage (l.drop i) <;> rfl
  · rw [if_neg hp, if_neg hp]

theorem computeMirrorImages_indices (l : List RaySegment) (hne : l ≠ [])
    (hlast : (l.getLast hne).hitComponentId.isSome) :
    (computeMirrorImages l).map MirrorImageData.reflectionPointIndex =
      (List.range (l.length - 1)).filter
        (fun i => (l.getD i dfltSeg).hitComponentId.isSome) := by
  rw [computeMirrorImages_eq l hne hlast, List.map_filterMap]
  rw [filterMap_congr_mem _ _
      (fun i => if (l.getD i dfltSeg).hitComponentId.isSome then some i else none) ?_,
    filterMap_guard_eq_filter]
  intro i hi
  have hilt : i < l.length - 1 := List.mem_range.mp hi
  have hdrop : l.drop i ≠ [] := by
    intro hd
    have := List.drop_eq_nil_iff.mp hd
    omega
  cases hmi : computeMirrorImage (l.drop i) with
  | none => exact absurd (computeMirrorImage_eq_none_iff _ |>.mp hmi) hdrop
  | some pos =>
    by_cases hp : (l.getD i dfltSeg).hitComponentId.isSome <;> simp [hp, hmi]

theorem computeMirrorImages_positions (l : List RaySegment) (hne : l ≠ [])
    (hlast : (l.getLast hne).hitComponentId.isSome) :
    ∀ img ∈ computeMirrorImages l,
      computeMirrorImage (l.drop img.reflectionPointIndex) = some img.position := by
  rw [computeMirrorImages_eq l hne hlast]
  intro img himg
  rcases List.mem_filterMap.mp himg with ⟨i, hi, hf⟩
  by_cases hp : (l.getD i dfltSeg).hitComponentId.isSome
  · rw [if_pos hp] at hf
    cases hmi : computeMirrorImage (l.drop i) with
    | none => rw [hmi] at hf; cases hf
    | some pos =>
      rw [hmi] at hf
      simp only [Option.map_some'] at hf
      simp only [Option.some.injEq] at hf
      rw [← hf]
      exact hmi
  · rw [if_neg hp] at hf
    cases hf



/-!
Concrete scenes used to exercise the tracer.
-/

/-- Viewer at the origin facing along the +X axis. -/
def viewer0 : ViewerSpec := ⟨"v", ⟨0, 0⟩, 0⟩

/-- Vertical absorbing wall at x = 5, from y = -1 to y = 1. -/
def wallLine : LineSegment := ⟨⟨5, -1⟩, ⟨5, 1⟩, "w", some false⟩

def wallG : ComponentGeometry := ⟨"w", GType.wall, [wallLine]⟩

/-- Vertical reflective mirror at x = 2, from y = -1 to y = 1. -/
def mirrorLine : LineSegment := ⟨⟨2, -1⟩, ⟨2, 1⟩, "m", some true⟩

def mirrorG : ComponentGeometry := ⟨"m", GType.mirror, [mirrorLine]⟩

theorem directionFromAngle_zero : directionFromAngle 0 = (⟨1, 0⟩ : Vec2) := by
  simp [directionFromAngle]

theorem sqrt25 : Real.sqrt 25 = 5 := by
  rw [show (25:ℝ) = 5^2 by norm_num, Real.sqrt_sq (by norm_num)]

theorem sqrt4 : Real.sqrt 4 = 2 := by
  rw [show (4:ℝ) = 2^2 by norm_num, Real.sqrt_sq (by norm_num)]

theorem computeRaySegments_empty (v : ViewerSpec) (ml : ℝ) (hml : 0 < ml) :
    computeRaySegments [] v ml =
      [{ origin := v.position, direction := directionFromAngle v.orientation,
         length := min ml 20, hitComponentId := none }] := by
  unfold computeRaySegments
  rw [if_neg (not_le.mpr hml)]
  have h := traceLoop_noHit [] v.position (directionFromAngle v.orientation) 0 ml 10
    (by norm_num) hml rfl
  rw [h, sub_zero]

theorem fch_wall : findClosestHit ⟨0,0⟩ ⟨1,0⟩ [wallG] =
    some ⟨⟨5, 0⟩, 5, "w", 0, some (getNormalFromLine ⟨5,-1⟩ ⟨5,1⟩), some false⟩ := by
  norm_num [findClosestHit, wallG, wallLine, List.enum, List.enumFrom, accStep,
    rayLineIntersection, lineIntersection, add, scale, subtract, dot, distance, sqrt25, mkHit,
    (by decide : GType.wall ≠ GType.viewer)]

set_option maxHeartbeats 1000000 in
theorem crs_wall : computeRaySegments [wallG] viewer0 3 =
    [⟨⟨0,0⟩, ⟨1,0⟩, 5, some "w"⟩] := by
  rw [computeRaySegments]
  norm_num [viewer0, directionFromAngle_zero]
  rw [show (10:ℕ) = 9+1 from rfl, traceLoop]
  norm_num [fch_wall]
  split <;> rfl

theorem normal_m : getNormalFromLine ⟨2,-1⟩ ⟨2,1⟩ = (⟨1, 0⟩ : Vec2) := by
  norm_num [getNormalFromLine, subtract, normalize, sqrt4]

theorem fch_mirror : findClosestHit ⟨0,0⟩ ⟨1,0⟩ [mirrorG] =
    some ⟨⟨2, 0⟩, 2, "m", 0, some ⟨1, 0⟩, some true⟩ := by
  norm_num [findClosestHit, mirrorG, mirrorLine, List.enum, List.enumFrom, accStep,
    rayLineIntersection, lineIntersection, add, scale, subtract, dot, distance, sqrt4, mkHit,
    normal_m, (by decide : GType.mirror ≠ GType.viewer)]

theorem refl_m : reflect ⟨1,0⟩ ⟨1,0⟩ = (⟨-1, 0⟩ : Vec2) := by
  norm_num [reflect, normalize, dot, subtract, scale]

theorem fch_mirror2 : findClosestHit ⟨2,0⟩ ⟨-1,0⟩ [mirrorG] = none := by
  norm_num [findClosestHit, mirrorG, mirrorLine, List.enum, List.enumFrom, accStep,
    rayLineIntersection, lineIntersection, add, scale, subtract, dot, distance, mkHit,
    (by decide : GType.mirror ≠ GType.viewer)]

set_option maxHeartbeats 1000000 in
theorem crs_mirror : computeRaySegments [mirrorG] viewer0 3 =
    [⟨⟨0,0⟩, ⟨1,0⟩, 2, some "m"⟩, ⟨⟨2,0⟩, ⟨-1,0⟩, 1, none⟩] := by
  rw [computeRaySegments]
  norm_num [viewer0, directionFromAngle_zero]
  rw [show (10:ℕ) = 9+1 from rfl, traceLoop]
  norm_num [fch_mirror]
  norm_num [refl_m, (show mirrorG.id = "m" from rfl),
    (show mirrorG.type = GType.mirror from rfl),
    (by decide : GType.mirror ≠ GType.wall), (by decide : GType.mirror ≠ GType.bunny)]
  rw [show (9:ℕ) = 8+1 from rfl, traceLoop]
  norm_num [fch_mirror2]

/-- Two-leg path: a mirror bounce at index 0, then a terminal hit on "b". -/
def path2 : List RaySegment :=
  [⟨⟨0,0⟩, ⟨1,0⟩, 2, some "m"⟩, ⟨⟨2,0⟩, ⟨-1,0⟩, 1, some "b"⟩]



/-!
The claim theorems.
-/

/-- C1: for every ray origin/direction and geometry list, `findClosestHit`
returns none iff no bounding line of a non-viewer geometry record yields a ray
intersection at distance exceeding 0.001; otherwise it returns a hit whose
distance exceeds 0.001 and is the global minimum over all candidates, with
exact-distance ties broken by iteration order (every candidate scanned before
the returned one is strictly farther, so the first candidate found wins). -/
theorem C1_findClosestHit_closest (o di : Vec2) (gs : List ComponentGeometry) :
    (findClosestHit o di gs = none ↔ candidates o di gs = []) ∧
    ∀ h : RayHit, findClosestHit o di gs = some h →
      0.001 < h.distance ∧
      (∀ c ∈ candidates o di gs, h.distance ≤ c.distance) ∧
      ∃ i, ∃ hi : i < (candidates o di gs).length,
        (candidates o di gs).get ⟨i, hi⟩ = h ∧
        ∀ c ∈ (candidates o di gs).take i, h.distance < c.distance := by
  refine ⟨findClosestHit_none_iff o di gs, ?_⟩
  intro h heq
  obtain ⟨i, hi, hget, hmin, htake⟩ := findClosestHit_some_spec o di gs h heq
  exact ⟨findClosestHit_some_epsilon o di gs h heq, hmin, i, hi, hget, htake⟩

theorem C1_witness :
    findClosestHit ⟨0,0⟩ ⟨1,0⟩ [] = none ∧ 0.001 < (5:ℝ) := by
  constructor
  · exact (C1_findClosestHit_closest ⟨0,0⟩ ⟨1,0⟩ []).1.mpr rfl
  · have h := ((C1_findClosestHit_closest ⟨0,0⟩ ⟨1,0⟩ [wallG]).2 _ fch_wall).1
    simpa using h

/-- C2: `computeMirrorImage` returns none iff the sub-path is empty, and for a
non-empty sub-path returns the first origin advanced along the normalized first
direction by the total summed segment length, regardless of whether the final
segment carries a hit id. -/
theorem C2_computeMirrorImage_spec (l : List RaySegment) :
    (computeMirrorImage l = none ↔ l = []) ∧
    ∀ first rest, l = first :: rest →
      computeMirrorImage l =
        some (add first.origin (scale (normalize first.direction)
          ((l.map RaySegment.length).sum))) := by
  refine ⟨computeMirrorImage_eq_none_iff l, ?_⟩
  rintro first rest rfl
  exact computeMirrorImage_cons first rest

theorem C2_witness :
    computeMirrorImage [⟨⟨0,0⟩, ⟨1,0⟩, 5, none⟩] = some ⟨5, 0⟩ := by
  have h := (C2_computeMirrorImage_spec [⟨⟨0,0⟩, ⟨1,0⟩, 5, none⟩]).2 _ _ rfl
  rw [h]
  norm_num [normalize, add, scale]

/-- C3: for a non-empty path whose terminal segment has no hit id,
`computeMirrorImages` returns the empty sequence; when the terminal segment has
a hit id, it returns exactly one image per index i below length - 1 whose
segment has a hit id, in ascending index order (the returned
reflection-point indices are exactly the increasing filtered range), each with
position `computeMirrorImage` of the suffix starting at its index. -/
theorem C3_computeMirrorImages_spec (l : List RaySegment) (hne : l ≠ []) :
    ((l.getLast hne).hitComponentId = none → computeMirrorImages l = []) ∧
    ((l.getLast hne).hitComponentId.isSome →
      (computeMirrorImages l).map MirrorImageData.reflectionPointIndex =
        (List.range (l.length - 1)).filter
          (fun i => (l.getD i dfltSeg).hitComponentId.isSome) ∧
      ∀ img ∈ computeMirrorImages l,
        computeMirrorImage (l.drop img.reflectionPointIndex) = some img.position) :=
  ⟨computeMirrorImages_noHit l hne,
   fun hlast => ⟨computeMirrorImages_indices l hne hlast,
     computeMirrorImages_positions l hne hlast⟩⟩

theorem C3_witness :
    (computeMirrorImages path2).map MirrorImageData.reflectionPointIndex = [0] := by
  have h := ((C3_computeMirrorImages_spec path2 (by simp [path2])).2 rfl).1
  rw [h]
  rfl

/-- C4: the traced path always holds at most maxBounces + 1 = 11 segments, for
every geometry, viewer and length budget; termination itself is intrinsic to
the embedding, whose fuel is the strictly decreasing bounce budget
`maxBounces - bounces` of the source loop. -/
theorem C4_length_le (gs : List ComponentGeometry) (v : ViewerSpec) (ml : ℝ) :
    (computeRaySegments gs v ml).length ≤ 11 := by
  unfold computeRaySegments
  by_cases h : ml ≤ 0
  · rw [if_pos h]
    simp
  · rw [if_neg h]
    have := traceLoop_length_le gs ml 10 v.position (directionFromAngle v.orientation) 0
    omega

/-- C5: with empty geometry and positive budget the trace is exactly one
unset-hit segment of length min maxLength 20; and in general, whenever the hit
detector reports no hit and budget remains, the loop appends exactly one final
capped segment and stops. -/
theorem C5_no_hit_capped :
    (∀ (v : ViewerSpec) (ml : ℝ), 0 < ml →
      computeRaySegments [] v ml =
        [{ origin := v.position, direction := directionFromAngle v.orientation,
           length := min ml 20, hitComponentId := none }]) ∧
    ∀ (gs : List ComponentGeometry) (o di : Vec2) (tl ml : ℝ) (fuel : ℕ),
      findClosestHit o di gs = none → tl < ml → 0 < fuel →
      traceLoop gs o di tl ml fuel =
        [{ origin := o, direction := di, length := min (ml - tl) 20,
           hitComponentId := none }] :=
  ⟨computeRaySegments_empty,
   fun gs o di tl ml fuel hn hml hf => traceLoop_noHit gs o di tl ml fuel hf hml hn⟩

theorem C5_witness :
    computeRaySegments [] viewer0 5 =
      [{ origin := ⟨0,0⟩, direction := ⟨1,0⟩, length := 5, hitComponentId := none }] := by
  have h := C5_no_hit_capped.1 viewer0 5 (by norm_num)
  rw [h]
  norm_num [viewer0, directionFromAngle_zero]

/-- C6 counterexample: with empty geometry and maxLength = 50 the single
escaping segment has length 20, not the full 50 the claim asserts. -/
theorem C6_counterexample :
    (computeRaySegments [] viewer0 50).map RaySegment.length = [20] ∧ (20:ℝ) ≠ 50 := by
  refine ⟨?_, by norm_num⟩
  rw [computeRaySegments_empty viewer0 50 (by norm_num)]
  norm_num

/-- C6 (amended): with empty geometry and positive maxLength the tracer yields
a single escaping segment of length min maxLength 20, which equals maxLength
exactly when maxLength is at most the 20-unit visual cap. -/
theorem C6_escape_capped (v : ViewerSpec) (ml : ℝ) (h0 : 0 < ml) :
    computeRaySegments [] v ml =
      [{ origin := v.position, direction := directionFromAngle v.orientation,
         length := min ml 20, hitComponentId := none }] ∧
    (ml ≤ 20 → (computeRaySegments [] v ml).map RaySegment.length = [ml]) := by
  refine ⟨computeRaySegments_empty v ml h0, fun h20 => ?_⟩
  rw [computeRaySegments_empty v ml h0]
  simp [min_eq_left h20]

theorem C6_witness :
    (computeRaySegments [] viewer0 10).map RaySegment.length = [10] :=
  (C6_escape_capped viewer0 10 (by norm_num)).2 (by norm_num)

/-- C7: a non-positive maxLength skips tracing and returns exactly one
zero-length segment at the viewer's position along its heading, with no hit id. -/
theorem C7_zero_budget (gs : List ComponentGeometry) (v : ViewerSpec) (ml : ℝ)
    (h : ml ≤ 0) :
    computeRaySegments gs v ml =
      [{ origin := v.position, direction := directionFromAngle v.orientation,
         length := 0, hitComponentId := none }] := by
  unfold computeRaySegments
  rw [if_pos h]

theorem C7_witness :
    computeRaySegments [] viewer0 0 =
      [{ origin := ⟨0,0⟩, direction := ⟨1,0⟩, length := 0, hitComponentId := none }] := by
  rw [C7_zero_budget [] viewer0 0 (le_refl 0)]
  norm_num [viewer0, directionFromAngle_zero]

/-- C8: every segment of every traced path has a unit direction (squared norm
one: the initial direction is (cos, sin) and reflection preserves the norm even
for a degenerate normalized-to-zero normal) and a non-negative length. -/
theorem C8_unit_nonneg (gs : List ComponentGeometry) (v : ViewerSpec) (ml : ℝ) :
    ∀ seg ∈ computeRaySegments gs v ml,
      sqnorm seg.direction = 1 ∧ 0 ≤ seg.length := by
  unfold computeRaySegments
  by_cases h : ml ≤ 0
  · rw [if_pos h]
    intro seg hseg
    rcases List.mem_singleton.mp hseg with rfl
    exact ⟨sqnorm_directionFromAngle v.orientation, le_refl 0⟩
  · rw [if_neg h]
    exact traceLoop_unit_nonneg gs ml 10 v.position (directionFromAngle v.orientation) 0
      (sqnorm_directionFromAngle v.orientation)

theorem C8_witness : sqnorm (⟨1,0⟩ : Vec2) = 1 ∧ 0 ≤ (5:ℝ) := by
  refine C8_unit_nonneg [] viewer0 5 ⟨⟨0,0⟩, ⟨1,0⟩, 5, none⟩ ?_
  rw [computeRaySegments_empty viewer0 5 (by norm_num)]
  norm_num [viewer0, directionFromAngle_zero]

/-- C9: in every traced path, every segment except possibly the last carries a
hit id; a segment with no hit id can only be the final one. -/
theorem C9_hit_except_last (gs : List ComponentGeometry) (v : ViewerSpec) (ml : ℝ) :
    ∀ seg ∈ (computeRaySegments gs v ml).dropLast, seg.hitComponentId.isSome := by
  unfold computeRaySegments
  by_cases h : ml ≤ 0
  · rw [if_pos h]
    intro seg hseg
    simp at hseg
  · rw [if_neg h]
    exact traceLoop_dropLast_hit gs ml 10 v.position (directionFromAngle v.orientation) 0

theorem C9_witness : (Option.some "m").isSome := by
  refine C9_hit_except_last [mirrorG] viewer0 3 ⟨⟨0,0⟩, ⟨1,0⟩, 2, some "m"⟩ ?_
  rw [crs_mirror]
  simp

/-- C10: the length budget is only checked before a leg is traced, and a leg
ending in a hit is appended at the full hit distance, so a path can overshoot
maxLength: with a wall at x = 5 and maxLength = 3 the traced path sums to 5. -/
theorem C10_budget_overshoot :
    ∃ (gs : List ComponentGeometry) (v : ViewerSpec) (ml : ℝ),
      0 < ml ∧ ml < ((computeRaySegments gs v ml).map RaySegment.length).sum := by
  refine ⟨[wallG], viewer0, 3, by norm_num, ?_⟩
  rw [crs_wall]
  norm_num


end Phys
